import Mathlib

/-!
# Point-to-point ICP error metric

A shallow embedding of `ErrorPointToPoint<Scalar, Point>::computeJacobian` and
`ErrorPointToPoint<Scalar, Point>::computeError`
(`src/icp/error_point_to_point.cpp`), with the `update` step that
`include/icp/error_point_to_point_so3.hpp` declares.

Modelling conventions.

* `Scalar` is a template parameter of the class, so the embedding is generic in
  the scalar type `α`; the theorems that need arithmetic laws ask for a ring
  (exact arithmetic). Rounding of `float` is outside the model.
* Eigen's dynamic matrices and vectors carry their sizes and are resized at run
  time: a matrix is a column count with a list of rows, a vector is a list.
* Eigen's `operator()`, `operator[]` and `row(i) << ...` are only defined for
  indices within the current size; an access outside it makes the embedded
  function return `none`.
* Loop counters and sizes are natural numbers: the clouds are assumed small
  enough for `3 * n + 2` to fit the `int` / `unsigned int` counters of the
  source.
-/

namespace icp

/-- The `x`, `y`, `z` fields of a PCL point type. -/
structure Point (α : Type) where
  x : α
  y : α
  z : α
deriving DecidableEq, Repr

/-- A `pcl::PointCloud<Point>`: an indexable sequence of points. -/
abbrev PointCloud (α : Type) := List (Point α)

/-- An `Eigen::Matrix<Scalar, Dynamic, Dynamic>`: the column count and the rows. -/
structure MatrixX (α : Type) where
  cols : Nat
  data : List (List α)
deriving DecidableEq, Repr

namespace MatrixX

variable {α : Type}

/-- Number of rows, `rows()` of Eigen. -/
def rows (m : MatrixX α) : Nat := m.data.length

/-- Eigen's `setZero(rows, cols)`: resize and fill with zeros. -/
def setZero [Zero α] (r c : Nat) : MatrixX α :=
  { cols := c, data := List.replicate r (List.replicate c 0) }

/-- Eigen's `Ones(rows, cols)`. -/
def ones [One α] (r c : Nat) : MatrixX α :=
  { cols := c, data := List.replicate r (List.replicate c 1) }

/-- Eigen's `m(i, j)` read access; `none` outside the matrix. -/
def coeff (m : MatrixX α) (i j : Nat) : Option α :=
  match m.data[i]? with
  | some row => if j < m.cols then row[j]? else none
  | none => none

/-- Eigen's `m.row(i) << v0, v1, ...`: the comma initialiser has to fill the row
exactly; `none` when the row does not exist or the number of values is not the
column count. -/
def setRow (m : MatrixX α) (i : Nat) (vals : List α) : Option (MatrixX α) :=
  if i < m.data.length ∧ vals.length = m.cols then
    some { m with data := m.data.set i vals }
  else none

end MatrixX

/-- Eigen's `v[i] = x` on a dynamic vector; `none` outside the vector. -/
def setCoeff {α : Type} (v : List α) (i : Nat) (x : α) : Option (List α) :=
  if i < v.length then some (v.set i x) else none

/-- The finiteness test behind Eigen's `allFinite()` (`std::isfinite` for
`float`). -/
class FiniteTest (α : Type) where
  isFinite : α → Bool

/-- Eigen's `allFinite()` on a vector. -/
def allFinite {α : Type} [FiniteTest α] (v : List α) : Bool :=
  v.all FiniteTest.isFinite

/-- The members of `Error<Scalar, 6, Point, Point>` used by the two functions. -/
structure ErrorPointToPoint (α : Type) where
  reference_ : PointCloud α
  current_ : PointCloud α
  weights_ : MatrixX α
  errorVector_ : List α
  J_ : MatrixX α
deriving DecidableEq, Repr

/-- Modelled from the spec: the point-by-point, axis-by-axis difference that
`pcltools::substractPointcloud` (declared in `pcltools.hpp`, which is not among
the sources) computes. Its direction is the one the spec's fixtures give:
"reference point i = (i, 2i, 3i), current point i = (−2i, 3i, i) ⇒ expected
residual block i = (3i, −i, 2i)", and reference `(1, 1, 1)`, current `(0, 0, 0)`,
weight row `(i, 2i, 3i)` ⇒ block `(i, 2i, 3i)`. The call
`substractPointcloud(current_, reference_)` therefore returns
`reference_i − current_i`: the second cloud minus the first. The tests
`RealErrorVector`, `TestWeights` and `JacobianUpdate` of `test_error.cpp` assert
this direction and `error_point_to_point_so3.hpp` documents it as `e = P* - P`,
`P*` being the reference cloud. The spec's formula `current_i − reference_i` and
the alternative left in a comment of `computeError` have the opposite sign. -/
def differenceCloud {α : Type} [Sub α] (pc1 pc2 : PointCloud α) : PointCloud α :=
  List.zipWith (fun p1 p2 => ⟨p2.x - p1.x, p2.y - p1.y, p2.z - p1.z⟩) pc1 pc2

/-- Modelled from the spec: `pcltools::substractPointcloud`, the
"elementwise-difference helper between two equal-length point sets". Clouds of
different lengths are outside its contract. -/
def substractPointcloud {α : Type} [Sub α] (pc1 pc2 : PointCloud α) :
    Option (PointCloud α) :=
  if pc1.length = pc2.length then some (differenceCloud pc1 pc2) else none

section Code

variable {α : Type}

/-- The loop of `computeJacobian`: `count` iterations starting at index `i`. -/
def computeJacobianLoop [Zero α] [One α] [Neg α] (reference_ : PointCloud α) :
    Nat → Nat → MatrixX α → Option (MatrixX α)
  | 0, _, J => some J
  | count + 1, i, J =>
    match reference_[i]? with
    | none => none
    | some p =>
      match J.setRow (i * 3) [-1, 0, 0, 0, -p.z, p.y] with
      | none => none
      | some J1 =>
        match J1.setRow (i * 3 + 1) [0, -1, 0, p.z, 0, -p.x] with
        | none => none
        | some J2 =>
          match J2.setRow (i * 3 + 2) [0, 0, -1, -p.y, p.x, 0] with
          | none => none
          | some J3 => computeJacobianLoop reference_ count (i + 1) J3

/-- `ErrorPointToPoint::computeJacobian`. -/
def computeJacobian [Zero α] [One α] [Neg α] (s : ErrorPointToPoint α) :
    Option (ErrorPointToPoint α) :=
  let n := s.reference_.length
  match computeJacobianLoop s.reference_ n 0 (MatrixX.setZero (3 * n) 6) with
  | none => none
  | some J => some { s with J_ := J }

/-- The loop of `computeError`: `count` iterations starting at index `i`. -/
def computeErrorLoop [Mul α] (pc_e : PointCloud α) (weights_ : MatrixX α) :
    Nat → Nat → List α → Option (List α)
  | 0, _, e => some e
  | count + 1, i, e =>
    match pc_e[i]? with
    | none => none
    | some p =>
      match weights_.coeff i 0 with
      | none => none
      | some w0 =>
        match setCoeff e (i * 3) (w0 * p.x) with
        | none => none
        | some e1 =>
          match weights_.coeff i 1 with
          | none => none
          | some w1 =>
            match setCoeff e1 (i * 3 + 1) (w1 * p.y) with
            | none => none
            | some e2 =>
              match weights_.coeff i 2 with
              | none => none
              | some w2 =>
                match setCoeff e2 (i * 3 + 2) (w2 * p.z) with
                | none => none
                | some e3 => computeErrorLoop pc_e weights_ count (i + 1) e3

/-- The text of the warning logged by `computeError`. -/
def nanWarning : String := "Error Vector has NaN values"

/-- `ErrorPointToPoint::computeError`: the instance after the call and the
warnings sent to the log. -/
def computeError [Sub α] [Mul α] [FiniteTest α] (s : ErrorPointToPoint α) :
    Option (ErrorPointToPoint α × List String) :=
  match substractPointcloud s.current_ s.reference_ with
  | none => none
  | some pc_e =>
    match computeErrorLoop pc_e s.weights_ pc_e.length 0 s.errorVector_ with
    | none => none
    | some e =>
      some ({ s with errorVector_ := e }, if !allFinite e then [nanWarning] else [])

end Code

/-- Exact scalars are all finite. -/
instance : FiniteTest ℤ := ⟨fun _ => true⟩

/-- Exact scalars are all finite. -/
instance : FiniteTest ℚ := ⟨fun _ => true⟩

/-- An exact number or NaN: a scalar type with a non-finite value, in which NaN
propagates through subtraction and multiplication. -/
inductive NanScalar where
  | num (v : ℤ)
  | nan
deriving DecidableEq, Repr

instance : Sub NanScalar where
  sub a b :=
    match a, b with
    | .num u, .num v => .num (u - v)
    | _, _ => .nan

instance : Mul NanScalar where
  mul a b :=
    match a, b with
    | .num u, .num v => .num (u * v)
    | _, _ => .nan

/-- The exact zero. -/
instance : Zero NanScalar := ⟨.num 0⟩

/-- NaN is the value that is not finite. -/
instance : FiniteTest NanScalar where
  isFinite a :=
    match a with
    | .num _ => true
    | .nan => false

/-! ## Vocabulary of the specification -/

section Vocabulary

variable {α : Type}

/-- Coordinate `k` of a point: `0`, `1`, `2` for `x`, `y`, `z`. -/
def Point.coord (p : Point α) (k : Nat) : α :=
  match k with
  | 0 => p.x
  | 1 => p.y
  | _ => p.z

/-- The matrix has `r` rows and `c` columns. -/
def MatrixX.HasShape (m : MatrixX α) (r c : Nat) : Prop :=
  m.data.length = r ∧ m.cols = c ∧ ∀ row ∈ m.data, row.length = c

instance (m : MatrixX α) (r c : Nat) : Decidable (m.HasShape r c) := by
  unfold MatrixX.HasShape; infer_instance

/-- Row `k` (`0`, `1`, `2`) of the 3×6 Jacobian block of the point `p`, as the
specification writes it. -/
def jacobianRow [Zero α] [One α] [Neg α] (p : Point α) (k : Nat) : List α :=
  match k with
  | 0 => [-1, 0, 0, 0, -p.z, p.y]
  | 1 => [0, -1, 0, p.z, 0, -p.x]
  | _ => [0, 0, -1, -p.y, p.x, 0]

/-- The entry of index `r` of the stacked weighted residual of the difference
cloud `pc_e`: weight `(r / 3, r % 3)` times coordinate `r % 3` of point `r / 3`. -/
def weighted [Mul α] (pc_e : PointCloud α) (W : MatrixX α) (r : Nat) : Option α :=
  match W.coeff (r / 3) (r % 3), pc_e[r / 3]? with
  | some w, some p => some (w * p.coord (r % 3))
  | _, _ => none

end Vocabulary

/-- The cross product `a × b`. -/
def cross {α : Type} [Mul α] [Sub α] (a b : Point α) : Point α :=
  ⟨a.y * b.z - a.z * b.y, a.z * b.x - a.x * b.z, a.x * b.y - a.y * b.x⟩

/-- The coordinates of a point as a column. -/
def Point.toList {α : Type} (p : Point α) : List α := [p.x, p.y, p.z]

/-- The opposite of a point. -/
def Point.neg {α : Type} [Neg α] (p : Point α) : Point α := ⟨-p.x, -p.y, -p.z⟩

/-- The skew-symmetric (cross-product) matrix of `p`, the one with
`skew p · v = p × v`. -/
def skew {α : Type} [Zero α] [Neg α] (p : Point α) : List (List α) :=
  [[0, -p.z, p.y], [p.z, 0, -p.x], [-p.y, p.x, 0]]

/-- The opposite of the 3×3 identity. -/
def negIdentity3 {α : Type} [Zero α] [One α] [Neg α] : List (List α) :=
  [[-1, 0, 0], [0, -1, 0], [0, 0, -1]]

/-- The 3×3 block of rows `r .. r + 2` and columns `c .. c + 2`. -/
def MatrixX.block3 {α : Type} (m : MatrixX α) (r c : Nat) : List (List α) :=
  ((m.data.drop r).take 3).map fun row => (row.drop c).take 3

/-- A matrix given by its rows, applied to a 3-vector. -/
def mulVec3 {α : Type} [Add α] [Mul α] [Zero α] (M : List (List α)) (v : Point α) : List α :=
  M.map fun row => (List.zipWith (fun a b => a * b) row v.toList).sum

/-- The dot product of two vectors. -/
def dot {α : Type} [Add α] [Mul α] [Zero α] (a b : List α) : α :=
  (List.zipWith (fun u v => u * v) a b).sum

/-- The product `J · x`. -/
def MatrixX.mulVec {α : Type} [Add α] [Mul α] [Zero α] (J : MatrixX α) (x : List α) : List α :=
  J.data.map fun row => dot row x

/-- The sum of two vectors. -/
def Point.add {α : Type} [Add α] (a b : Point α) : Point α :=
  ⟨a.x + b.x, a.y + b.y, a.z + b.z⟩

/-- The zero vector. -/
def Point.zero {α : Type} [Zero α] : Point α := ⟨0, 0, 0⟩

/-- The twist `ξ = (t, ω)` as a 6-vector: translation part first, rotation part
last, the order of the columns of the Jacobian. -/
def twist {α : Type} (t ω : Point α) : List α := [t.x, t.y, t.z, ω.x, ω.y, ω.z]

/-- A 4×4 homogeneous pose matrix. -/
abbrev Pose (α : Type) := Matrix (Fin 4) (Fin 4) α

/-- Modelled from the spec: `ErrorPointToPointSO3::update`, which
`error_point_to_point_so3.hpp` only declares (its body is not among the
sources). It "solves the linear least-squares system (pseudo-inverse of the
Jacobian applied to the error vector) to obtain an incremental twist", then
"exponentiates it" and "left-composes it onto the current pose estimate:
`T_new = Exp(Δ) · T_current`", in one step. The pseudo-inverse and the
exponential map are the external linear-algebra utilities and the current pose
estimate is kept outside the two buffers: the three are arguments. -/
def update {α : Type} [CommRing α] (pseudoInverse : MatrixX α → MatrixX α)
    (expMap : List α → Pose α) (T_current : Pose α) (s : ErrorPointToPoint α) : Pose α :=
  let Δ := (pseudoInverse s.J_).mulVec s.errorVector_
  expMap Δ * T_current

/-! ## Fixtures -/

/-- A two-point instance with non-trivial weights and stale output buffers. -/
def sampleState : ErrorPointToPoint ℤ :=
  { reference_ := [⟨1, 2, 3⟩, ⟨4, 5, 6⟩]
    current_ := [⟨-2, 3, 1⟩, ⟨0, 0, 0⟩]
    weights_ := ⟨3, [[1, 2, 3], [4, 5, 6]]⟩
    errorVector_ := [9, 9, 9, 9, 9, 9]
    J_ := ⟨1, [[7]]⟩ }

/-- The instance of the `RealErrorVector` test before `computeError`: reference
`pc1_`, current `pc2_` (`n` points each), all-ones weights, a zeroed error
vector of length `3 * n`. -/
def realErrorVectorFixture (n : Nat) : ErrorPointToPoint ℤ :=
  { reference_ := (List.range n).map fun i => ⟨i, 2 * i, 3 * i⟩
    current_ := (List.range n).map fun i => ⟨-2 * i, 3 * i, i⟩
    weights_ := MatrixX.ones n 3
    errorVector_ := List.replicate (3 * n) 0
    J_ := MatrixX.setZero 0 6 }

/-- The vector `err_expected_` of the `RealErrorVector` test. -/
def realErrorVectorExpected (n : Nat) : List ℤ :=
  (List.range n).flatMap fun i => [3 * (i : ℤ), -i, 2 * i]

/-- The instance of the `TestWeights` test before `computeError`: reference
`pc_m` of points `(1, 1, 1)`, current `pc_d` of points `(0, 0, 0)`, weight row
`i` equal to `(i, 2 i, 3 i)`. -/
def testWeightsFixture (n : Nat) : ErrorPointToPoint ℤ :=
  { reference_ := List.replicate n ⟨1, 1, 1⟩
    current_ := List.replicate n ⟨0, 0, 0⟩
    weights_ := ⟨3, (List.range n).map fun i => [(i : ℤ), 2 * i, 3 * i]⟩
    errorVector_ := List.replicate (3 * n) 0
    J_ := MatrixX.setZero 0 6 }

/-- The vector `err_expected` of the `TestWeights` test. -/
def testWeightsExpected (n : Nat) : List ℤ :=
  (List.range n).flatMap fun i => [(i : ℤ), 2 * i, 3 * i]

/-- The sample instance with the current set equal to the reference set. -/
def identityState : ErrorPointToPoint ℤ :=
  { sampleState with current_ := sampleState.reference_ }

/-- A one-point instance whose error vector is longer than `3 * N`. -/
def longBufferState : ErrorPointToPoint ℤ :=
  { reference_ := [⟨1, 1, 1⟩]
    current_ := [⟨0, 0, 0⟩]
    weights_ := MatrixX.ones 1 3
    errorVector_ := [9, 9, 9, 9]
    J_ := MatrixX.setZero 0 6 }

/-- An instance that shares only the reference set with the sample. -/
def otherState : ErrorPointToPoint ℤ :=
  { reference_ := sampleState.reference_
    current_ := []
    weights_ := MatrixX.ones 2 3
    errorVector_ := []
    J_ := MatrixX.setZero 0 6 }

/-- A one-point instance whose error vector was never sized. -/
def emptyBufferState : ErrorPointToPoint ℤ :=
  { longBufferState with errorVector_ := [] }

/-- A one-point instance whose reference point is the first basis vector. -/
def basisState : ErrorPointToPoint ℤ :=
  { reference_ := [⟨1, 0, 0⟩]
    current_ := []
    weights_ := MatrixX.ones 0 3
    errorVector_ := []
    J_ := MatrixX.setZero 0 6 }

/-- The sample instance with a stale error vector of other contents and another
Jacobian. -/
def staleState : ErrorPointToPoint ℤ :=
  { reference_ := sampleState.reference_
    current_ := sampleState.current_
    weights_ := sampleState.weights_
    errorVector_ := [1, 2, 3, 4, 5, 6]
    J_ := MatrixX.setZero 0 6 }

/-- A two-point instance whose first current point has a NaN coordinate. -/
def nanState : ErrorPointToPoint NanScalar :=
  { reference_ := [⟨.num 1, .num 2, .num 3⟩, ⟨.num 4, .num 5, .num 6⟩]
    current_ := [⟨.num 0, .nan, .num 1⟩, ⟨.num 7, .num 7, .num 7⟩]
    weights_ := ⟨3, [[.num 1, .num 1, .num 1], [.num 2, .num 2, .num 2]]⟩
    errorVector_ := List.replicate 6 (.num 0)
    J_ := ⟨0, []⟩ }

/-- An instance whose weight matrix has one row for two points. -/
def shortWeightsState : ErrorPointToPoint ℤ :=
  { reference_ := sampleState.reference_
    current_ := sampleState.current_
    weights_ := MatrixX.ones 1 3
    errorVector_ := sampleState.errorVector_
    J_ := sampleState.J_ }

/-- The rotation by a quarter turn about the `z` axis, as a pose. -/
def quarterTurn : Pose ℤ :=
  Matrix.of ![![0, -1, 0, 0], ![1, 0, 0, 0], ![0, 0, 1, 0], ![0, 0, 0, 1]]

/-- The translation by one unit along `x`, as a pose. -/
def unitShift : Pose ℤ :=
  Matrix.of ![![1, 0, 0, 1], ![0, 1, 0, 0], ![0, 0, 1, 0], ![0, 0, 0, 1]]

/-- A one-point instance over `NanScalar` with the current set equal to the
reference set and a NaN coordinate. -/
def nanIdentityState : ErrorPointToPoint NanScalar :=
  { reference_ := [⟨.nan, .num 2, .num 3⟩]
    current_ := [⟨.nan, .num 2, .num 3⟩]
    weights_ := ⟨3, [[.num 1, .num 1, .num 1]]⟩
    errorVector_ := List.replicate 3 (.num 9)
    J_ := ⟨0, []⟩ }

/-- A two-point instance over `NanScalar` with the current set equal to the
reference set, all of whose coordinates and weights are finite. -/
def finiteIdentityState : ErrorPointToPoint NanScalar :=
  { reference_ := [⟨.num 1, .num 2, .num 3⟩, ⟨.num 4, .num 5, .num 6⟩]
    current_ := [⟨.num 1, .num 2, .num 3⟩, ⟨.num 4, .num 5, .num 6⟩]
    weights_ := ⟨3, [[.num 1, .num 2, .num 3], [.num 4, .num 5, .num 6]]⟩
    errorVector_ := List.replicate 6 (.num 9)
    J_ := ⟨0, []⟩ }

/-! ## The two loops -/

section Loops

variable {α : Type}

theorem setRow_eq_some (m : MatrixX α) (i : Nat) (vals : List α)
    (hi : i < m.data.length) (hv : vals.length = m.cols) :
    m.setRow i vals = some ⟨m.cols, m.data.set i vals⟩ := by
  simp [MatrixX.setRow, hi, hv]

theorem setCoeff_eq_some (v : List α) (i : Nat) (x : α) (h : i < v.length) :
    setCoeff v i x = some (v.set i x) := by
  simp [setCoeff, h]

theorem coeff_eq_some_of_hasShape (m : MatrixX α) (r c : Nat) (h : m.HasShape r c)
    (i j : Nat) (hi : i < r) (hj : j < c) : ∃ w, m.coeff i j = some w := by
  obtain ⟨hr, hc, hrow⟩ := h
  have hi' : i < m.data.length := by omega
  have hlen : (m.data[i]).length = c := hrow _ (List.getElem_mem hi')
  refine ⟨(m.data[i])[j], ?_⟩
  simp [MatrixX.coeff, List.getElem?_eq_getElem hi', hc, hj, hlen]

theorem computeJacobianLoop_succ [Zero α] [One α] [Neg α] (ref : PointCloud α)
    (count i : Nat) (J : MatrixX α) (p : Point α) (hp : ref[i]? = some p)
    (hJ : i * 3 + 2 < J.data.length) (hc : J.cols = 6) :
    computeJacobianLoop ref (count + 1) i J =
      computeJacobianLoop ref count (i + 1)
        ⟨6, ((J.data.set (i * 3) (jacobianRow p 0)).set (i * 3 + 1) (jacobianRow p 1)).set
          (i * 3 + 2) (jacobianRow p 2)⟩ := by
  rw [computeJacobianLoop, hp]
  simp only []
  rw [setRow_eq_some _ _ _ (by omega) (by simp [hc])]
  simp only []
  rw [setRow_eq_some _ _ _ (by simp; omega) (by simp [hc])]
  simp only []
  rw [setRow_eq_some _ _ _ (by simp; omega) (by simp [hc])]
  simp only [hc, jacobianRow]

/-- Three consecutive writes at `i * 3`, `i * 3 + 1`, `i * 3 + 2` followed by the
writes of the later iterations: what is read at index `r` afterwards. -/
theorem getElem?_after_writes {β : Type} (l : List β) (a b c : β) (i count r : Nat)
    (hl : i * 3 + 2 < l.length) (f : Nat → Option β)
    (h0 : f (i * 3) = some a) (h1 : f (i * 3 + 1) = some b) (h2 : f (i * 3 + 2) = some c) :
    (if 3 * (i + 1) ≤ r ∧ r < 3 * (i + 1 + count) then f r
      else (List.set (List.set (List.set l (i * 3) a) (i * 3 + 1) b) (i * 3 + 2) c)[r]?) =
    (if 3 * i ≤ r ∧ r < 3 * (i + (count + 1)) then f r else l[r]?) := by
  simp only [List.getElem?_set, List.length_set]
  by_cases k0 : r = i * 3
  · subst k0
    have c1 : ¬ (3 * (i + 1) ≤ i * 3 ∧ i * 3 < 3 * (i + 1 + count)) := by omega
    have c2 : 3 * i ≤ i * 3 ∧ i * 3 < 3 * (i + (count + 1)) := by omega
    have c3 : i * 3 < l.length := by omega
    simp [c1, c2, c3, h0]
  · by_cases k1 : r = i * 3 + 1
    · subst k1
      have c1 : ¬ (3 * (i + 1) ≤ i * 3 + 1 ∧ i * 3 + 1 < 3 * (i + 1 + count)) := by omega
      have c2 : 3 * i ≤ i * 3 + 1 ∧ i * 3 + 1 < 3 * (i + (count + 1)) := by omega
      have c3 : i * 3 + 1 < l.length := by omega
      simp [c1, c2, c3, h1]
    · by_cases k2 : r = i * 3 + 2
      · subst k2
        have c1 : ¬ (3 * (i + 1) ≤ i * 3 + 2 ∧ i * 3 + 2 < 3 * (i + 1 + count)) := by omega
        have c2 : 3 * i ≤ i * 3 + 2 ∧ i * 3 + 2 < 3 * (i + (count + 1)) := by omega
        have c3 : i * 3 + 2 < l.length := by omega
        simp [c1, c2, c3, h2]
      · have n0 : ¬ (i * 3 = r) := fun h => k0 h.symm
        have n1 : ¬ (i * 3 + 1 = r) := fun h => k1 h.symm
        have n2 : ¬ (i * 3 + 2 = r) := fun h => k2 h.symm
        simp only [n0, n1, n2, if_false]
        by_cases c : 3 * (i + 1) ≤ r ∧ r < 3 * (i + 1 + count)
        · have c2 : 3 * i ≤ r ∧ r < 3 * (i + (count + 1)) := by omega
          rw [if_pos c, if_pos c2]
        · have c2 : ¬ (3 * i ≤ r ∧ r < 3 * (i + (count + 1))) := by omega
          rw [if_neg c, if_neg c2]

theorem computeJacobianLoop_spec [Zero α] [One α] [Neg α] (ref : PointCloud α) :
    ∀ (count i : Nat) (J : MatrixX α), i + count ≤ ref.length →
      3 * (i + count) ≤ J.data.length → J.cols = 6 →
      ∃ J', computeJacobianLoop ref count i J = some J' ∧ J'.cols = 6 ∧
        J'.data.length = J.data.length ∧
        ∀ r, J'.data[r]? =
          if 3 * i ≤ r ∧ r < 3 * (i + count) then
            (ref[r / 3]?).map (fun p => jacobianRow p (r % 3))
          else J.data[r]? := by
  intro count
  induction count with
  | zero =>
    intro i J _ _ hc
    refine ⟨J, rfl, hc, rfl, ?_⟩
    intro r
    rw [if_neg (by omega)]
  | succ count ih =>
    intro i J hi hJ hc
    have hlt : i < ref.length := by omega
    have hp : ref[i]? = some ref[i] := List.getElem?_eq_getElem hlt
    rw [computeJacobianLoop_succ ref count i J ref[i] hp (by omega) hc]
    obtain ⟨J', hJ', hc', hl', hr'⟩ := ih (i + 1)
      (MatrixX.mk 6 (List.set (List.set (List.set J.data (i * 3) (jacobianRow ref[i] 0))
        (i * 3 + 1) (jacobianRow ref[i] 1)) (i * 3 + 2) (jacobianRow ref[i] 2)))
      (by omega) (by simp only [List.length_set]; omega) rfl
    refine ⟨J', hJ', hc', by simpa using hl', ?_⟩
    intro r
    rw [hr' r]
    have e0 : i * 3 / 3 = i := by omega
    have e1 : (i * 3 + 1) / 3 = i := by omega
    have e2 : (i * 3 + 2) / 3 = i := by omega
    have m0 : i * 3 % 3 = 0 := by omega
    have m1 : (i * 3 + 1) % 3 = 1 := by omega
    have m2 : (i * 3 + 2) % 3 = 2 := by omega
    exact getElem?_after_writes J.data _ _ _ i count r (by omega)
      (fun r => (ref[r / 3]?).map (fun p => jacobianRow p (r % 3)))
      (by simp only [e0, m0, hp, Option.map_some']) (by simp only [e1, m1, hp, Option.map_some'])
      (by simp only [e2, m2, hp, Option.map_some'])

theorem computeErrorLoop_succ [Mul α] (pc_e : PointCloud α) (W : MatrixX α)
    (count i : Nat) (e : List α) (p : Point α) (w0 w1 w2 : α)
    (hp : pc_e[i]? = some p) (h0 : W.coeff i 0 = some w0) (h1 : W.coeff i 1 = some w1)
    (h2 : W.coeff i 2 = some w2) (he : i * 3 + 2 < e.length) :
    computeErrorLoop pc_e W (count + 1) i e =
      computeErrorLoop pc_e W count (i + 1)
        (List.set (List.set (List.set e (i * 3) (w0 * p.x)) (i * 3 + 1) (w1 * p.y))
          (i * 3 + 2) (w2 * p.z)) := by
  rw [computeErrorLoop, hp]
  simp only [h0, h1, h2]
  rw [setCoeff_eq_some _ _ _ (by omega)]
  simp only []
  rw [setCoeff_eq_some _ _ _ (by simp; omega)]
  simp only []
  rw [setCoeff_eq_some _ _ _ (by simp; omega)]

theorem computeErrorLoop_spec [Mul α] (pc_e : PointCloud α) (W : MatrixX α)
    (hW : W.HasShape pc_e.length 3) :
    ∀ (count i : Nat) (e : List α), i + count ≤ pc_e.length →
      3 * (i + count) ≤ e.length →
      ∃ e', computeErrorLoop pc_e W count i e = some e' ∧ e'.length = e.length ∧
        ∀ r, e'[r]? =
          if 3 * i ≤ r ∧ r < 3 * (i + count) then weighted pc_e W r else e[r]? := by
  intro count
  induction count with
  | zero =>
    intro i e _ _
    refine ⟨e, rfl, rfl, ?_⟩
    intro r
    rw [if_neg (by omega)]
  | succ count ih =>
    intro i e hi he
    have hlt : i < pc_e.length := by omega
    have hp : pc_e[i]? = some pc_e[i] := List.getElem?_eq_getElem hlt
    obtain ⟨w0, h0⟩ := coeff_eq_some_of_hasShape W _ 3 hW i 0 hlt (by omega)
    obtain ⟨w1, h1⟩ := coeff_eq_some_of_hasShape W _ 3 hW i 1 hlt (by omega)
    obtain ⟨w2, h2⟩ := coeff_eq_some_of_hasShape W _ 3 hW i 2 hlt (by omega)
    rw [computeErrorLoop_succ pc_e W count i e pc_e[i] w0 w1 w2 hp h0 h1 h2 (by omega)]
    obtain ⟨e', he', hl', hr'⟩ := ih (i + 1)
      (List.set (List.set (List.set e (i * 3) (w0 * pc_e[i].x)) (i * 3 + 1) (w1 * pc_e[i].y))
        (i * 3 + 2) (w2 * pc_e[i].z))
      (by omega) (by simp only [List.length_set]; omega)
    refine ⟨e', he', by simpa using hl', ?_⟩
    intro r
    rw [hr' r]
    have e0 : i * 3 / 3 = i := by omega
    have e1 : (i * 3 + 1) / 3 = i := by omega
    have e2 : (i * 3 + 2) / 3 = i := by omega
    have m0 : i * 3 % 3 = 0 := by omega
    have m1 : (i * 3 + 1) % 3 = 1 := by omega
    have m2 : (i * 3 + 2) % 3 = 2 := by omega
    exact getElem?_after_writes e _ _ _ i count r (by omega) (weighted pc_e W)
      (by simp only [weighted, e0, m0, hp, h0, Point.coord])
      (by simp only [weighted, e1, m1, hp, h1, Point.coord])
      (by simp only [weighted, e2, m2, hp, h2, Point.coord])

end Loops

/-! ## The two functions -/

section Functions

variable {α : Type}

theorem computeJacobian_spec [Zero α] [One α] [Neg α] (s : ErrorPointToPoint α) :
    ∃ J, computeJacobian s = some { s with J_ := J } ∧ J.cols = 6 ∧
      J.data.length = 3 * s.reference_.length ∧
      ∀ r, J.data[r]? =
        if r < 3 * s.reference_.length then
          (s.reference_[r / 3]?).map (fun p => jacobianRow p (r % 3))
        else none := by
  obtain ⟨J, hJ, hc, hl, hr⟩ := computeJacobianLoop_spec s.reference_ s.reference_.length 0
    (MatrixX.setZero (3 * s.reference_.length) 6) (by omega)
    (by simp [MatrixX.setZero]) rfl
  refine ⟨J, ?_, hc, ?_, ?_⟩
  · simp only [computeJacobian, hJ]
  · simpa [MatrixX.setZero] using hl
  · intro r
    rw [hr r]
    by_cases h : r < 3 * s.reference_.length
    · rw [if_pos (by omega), if_pos h]
    · rw [if_neg (by omega), if_neg h]
      simp only [MatrixX.setZero]
      exact List.getElem?_eq_none (by simp; omega)

theorem computeError_spec [Sub α] [Mul α] [FiniteTest α] (s : ErrorPointToPoint α) (N : Nat)
    (hr : s.reference_.length = N) (hc : s.current_.length = N)
    (hW : s.weights_.HasShape N 3) (he : 3 * N ≤ s.errorVector_.length) :
    ∃ e, computeError s =
        some ({ s with errorVector_ := e }, if !allFinite e then [nanWarning] else []) ∧
      e.length = s.errorVector_.length ∧
      ∀ r, e[r]? =
        if r < 3 * N then weighted (differenceCloud s.current_ s.reference_) s.weights_ r
        else s.errorVector_[r]? := by
  have hlen : (differenceCloud s.current_ s.reference_).length = N := by
    simp [differenceCloud, hr, hc]
  obtain ⟨e, hE, hl, hrd⟩ := computeErrorLoop_spec (differenceCloud s.current_ s.reference_)
    s.weights_ (by rw [hlen]; exact hW) N 0 s.errorVector_ (by omega) (by omega)
  refine ⟨e, ?_, hl, ?_⟩
  · have hsub : substractPointcloud s.current_ s.reference_ =
        some (differenceCloud s.current_ s.reference_) := by
      simp [substractPointcloud, hr, hc]
    simp only [computeError, hsub, hlen, hE]
  · intro r
    rw [hrd r]
    by_cases h : r < 3 * N
    · rw [if_pos (by omega), if_pos h]
    · rw [if_neg (by omega), if_neg h]

theorem getElem?_differenceCloud [Sub α] (current reference : PointCloud α) (i : Nat)
    (c r : Point α) (hc : current[i]? = some c) (hr : reference[i]? = some r) :
    (differenceCloud current reference)[i]? = some ⟨r.x - c.x, r.y - c.y, r.z - c.z⟩ := by
  simp [differenceCloud, List.getElem?_zipWith, hc, hr]

theorem coord_sub [Sub α] (c r : Point α) (k : Nat) :
    (Point.mk (c.x - r.x) (c.y - r.y) (c.z - r.z)).coord k = c.coord k - r.coord k := by
  unfold Point.coord
  split <;> rfl

theorem computeError_entry [Sub α] [Mul α] [FiniteTest α] (s : ErrorPointToPoint α) (N : Nat)
    (hr : s.reference_.length = N) (hc : s.current_.length = N)
    (hW : s.weights_.HasShape N 3) (he : 3 * N ≤ s.errorVector_.length) :
    ∃ e, computeError s =
        some ({ s with errorVector_ := e }, if !allFinite e then [nanWarning] else []) ∧
      e.length = s.errorVector_.length ∧
      (∀ r, 3 * N ≤ r → e[r]? = s.errorVector_[r]?) ∧
      ∀ i k c r w, k < 3 → s.current_[i]? = some c → s.reference_[i]? = some r →
        s.weights_.coeff i k = some w →
        e[3 * i + k]? = some (w * (r.coord k - c.coord k)) := by
  obtain ⟨e, hE, hl, hrd⟩ := computeError_spec s N hr hc hW he
  refine ⟨e, hE, hl, ?_, ?_⟩
  · intro r hr3
    rw [hrd r, if_neg (by omega)]
  · intro i k c r w hk hci hri hw
    have hi : i < N := by
      rw [← hc]
      exact (List.getElem?_eq_some.mp hci).1
    have e1 : (3 * i + k) / 3 = i := by omega
    have e2 : (3 * i + k) % 3 = k := by omega
    rw [hrd (3 * i + k), if_pos (by omega)]
    simp only [weighted, e1, e2, hw, getElem?_differenceCloud _ _ i c r hci hri, coord_sub]

theorem ones_hasShape [One α] (r c : Nat) : (MatrixX.ones r c : MatrixX α).HasShape r c := by
  refine ⟨by simp [MatrixX.ones], rfl, ?_⟩
  intro row hrow
  simp only [MatrixX.ones] at hrow
  rw [(List.mem_replicate.mp hrow).2]
  simp

theorem ones_coeff [One α] (r c i j : Nat) (hi : i < r) (hj : j < c) :
    (MatrixX.ones r c : MatrixX α).coeff i j = some 1 := by
  simp [MatrixX.coeff, MatrixX.ones, hi, hj]

theorem jacobianRow_length [Zero α] [One α] [Neg α] (p : Point α) (k : Nat) :
    (jacobianRow p k).length = 6 := by
  unfold jacobianRow
  split <;> rfl

theorem take3_drop {β : Type} (l : List β) (n : Nat) (a b c : β)
    (ha : l[n]? = some a) (hb : l[n + 1]? = some b) (hc : l[n + 2]? = some c) :
    (l.drop n).take 3 = [a, b, c] := by
  apply List.ext_getElem?
  intro k
  rw [List.getElem?_take, List.getElem?_drop]
  match k with
  | 0 => simpa using ha
  | 1 => simpa using hb
  | 2 => simpa using hc
  | k + 3 => simp

theorem computeJacobian_rows [Zero α] [One α] [Neg α] (s : ErrorPointToPoint α)
    (i : Nat) (p : Point α) (hp : s.reference_[i]? = some p) :
    ∃ J, computeJacobian s = some { s with J_ := J } ∧
      (J.data.drop (3 * i)).take 3 = [jacobianRow p 0, jacobianRow p 1, jacobianRow p 2] := by
  obtain ⟨J, hJ, _, _, hrow⟩ := computeJacobian_spec s
  have hi : i < s.reference_.length := (List.getElem?_eq_some.mp hp).1
  have e0 : 3 * i / 3 = i := by omega
  have e1 : (3 * i + 1) / 3 = i := by omega
  have e2 : (3 * i + 2) / 3 = i := by omega
  have m0 : 3 * i % 3 = 0 := by omega
  have m1 : (3 * i + 1) % 3 = 1 := by omega
  have m2 : (3 * i + 2) % 3 = 2 := by omega
  refine ⟨J, hJ, take3_drop _ _ _ _ _ ?_ ?_ ?_⟩
  · rw [hrow, if_pos (by omega), e0, m0, hp]; rfl
  · rw [hrow, if_pos (by omega), e1, m1, hp]; rfl
  · rw [hrow, if_pos (by omega), e2, m2, hp]; rfl

theorem computeError_congr_J [Sub α] [Mul α] [FiniteTest α] (s : ErrorPointToPoint α)
    (J : MatrixX α) :
    computeError { s with J_ := J } =
      (computeError s).map fun r => ({ r.1 with J_ := J }, r.2) := by
  simp only [computeError]
  cases substractPointcloud s.current_ s.reference_ with
  | none => rfl
  | some pc_e =>
    simp only []
    cases computeErrorLoop pc_e s.weights_ pc_e.length 0 s.errorVector_ with
    | none => rfl
    | some e => rfl

theorem computeJacobian_congr_errorVector [Zero α] [One α] [Neg α] (s : ErrorPointToPoint α)
    (e : List α) :
    computeJacobian { s with errorVector_ := e } =
      (computeJacobian s).map fun t => { t with errorVector_ := e } := by
  simp only [computeJacobian]
  cases computeJacobianLoop s.reference_ s.reference_.length 0
      (MatrixX.setZero (3 * s.reference_.length) 6) with
  | none => rfl
  | some J => rfl

/-- What `computeError` returns is the instance with a new error vector. -/
theorem computeError_frame [Sub α] [Mul α] [FiniteTest α] (s s1 : ErrorPointToPoint α)
    (log : List String) (h : computeError s = some (s1, log)) :
    s1 = { s with errorVector_ := s1.errorVector_ } := by
  simp only [computeError] at h
  cases hsub : substractPointcloud s.current_ s.reference_ with
  | none => rw [hsub] at h; exact absurd h (by simp)
  | some pc_e =>
    rw [hsub] at h
    simp only [] at h
    cases hloop : computeErrorLoop pc_e s.weights_ pc_e.length 0 s.errorVector_ with
    | none => rw [hloop] at h; exact absurd h (by simp)
    | some e =>
      rw [hloop] at h
      simp only [Option.some.injEq, Prod.mk.injEq] at h
      rw [← h.1]

/-- What `computeJacobian` returns is the instance with a new Jacobian. -/
theorem computeJacobian_frame [Zero α] [One α] [Neg α] (s s2 : ErrorPointToPoint α)
    (h : computeJacobian s = some s2) : s2 = { s with J_ := s2.J_ } := by
  simp only [computeJacobian] at h
  cases hloop : computeJacobianLoop s.reference_ s.reference_.length 0
      (MatrixX.setZero (3 * s.reference_.length) 6) with
  | none => rw [hloop] at h; exact absurd h (by simp)
  | some J =>
    rw [hloop] at h
    simp only [Option.some.injEq] at h
    rw [← h]

/-- With a buffer of exactly `3 * N` entries, the error vector after
`computeError` is a function of the two sets and the weights only. -/
theorem computeError_vector_unique [Sub α] [Mul α] [FiniteTest α]
    (s1 s2 : ErrorPointToPoint α) (N : Nat)
    (hr : s1.reference_.length = N) (hc : s1.current_.length = N)
    (hW : s1.weights_.HasShape N 3) (he1 : s1.errorVector_.length = 3 * N)
    (he2 : s2.errorVector_.length = 3 * N) (href : s2.reference_ = s1.reference_)
    (hcur : s2.current_ = s1.current_) (hwt : s2.weights_ = s1.weights_) :
    ∃ e, computeError s1 =
        some ({ s1 with errorVector_ := e }, if !allFinite e then [nanWarning] else []) ∧
      computeError s2 =
        some ({ s2 with errorVector_ := e }, if !allFinite e then [nanWarning] else []) := by
  obtain ⟨e1, hE1, hl1, hrd1⟩ := computeError_spec s1 N hr hc hW (by omega)
  obtain ⟨e2, hE2, hl2, hrd2⟩ := computeError_spec s2 N (by rw [href]; exact hr)
    (by rw [hcur]; exact hc) (by rw [hwt]; exact hW) (by omega)
  have : e2 = e1 := by
    apply List.ext_getElem?
    intro r
    rw [hrd1 r, hrd2 r, href, hcur, hwt]
    by_cases h : r < 3 * N
    · rw [if_pos h, if_pos h]
    · rw [if_neg h, if_neg h, List.getElem?_eq_none (by omega),
        List.getElem?_eq_none (by omega)]
  rw [this] at hE2
  exact ⟨e1, hE1, hE2⟩

theorem setCoeff_some_iff (v : List α) (i : Nat) (x : α) (v' : List α) :
    setCoeff v i x = some v' ↔ i < v.length ∧ v' = v.set i x := by
  unfold setCoeff
  split
  · simp_all [eq_comm]
  · simp_all

theorem setRow_some_iff (m : MatrixX α) (i : Nat) (vals : List α) (m' : MatrixX α) :
    m.setRow i vals = some m' ↔
      (i < m.data.length ∧ vals.length = m.cols) ∧ m' = ⟨m.cols, m.data.set i vals⟩ := by
  unfold MatrixX.setRow
  split
  · simp_all [eq_comm]
  · simp_all

/-- If the loop of `computeError` returns, every index it used was in bounds. -/
theorem computeErrorLoop_in_bounds [Mul α] (pc_e : PointCloud α) (W : MatrixX α) :
    ∀ (count i : Nat) (e e' : List α), computeErrorLoop pc_e W count i e = some e' →
      ∀ j, i ≤ j → j < i + count →
        j < pc_e.length ∧ ∀ k, k < 3 → (W.coeff j k).isSome ∧ 3 * j + k < e.length := by
  intro count
  induction count with
  | zero => intro i e e' _ j h1 h2; omega
  | succ count ih =>
    intro i e e' h j h1 h2
    rw [computeErrorLoop] at h
    cases hp : pc_e[i]? with
    | none => rw [hp] at h; exact absurd h (by simp)
    | some p =>
    cases h0 : W.coeff i 0 with
    | none => simp [hp, h0] at h
    | some w0 =>
    cases hs0 : setCoeff e (i * 3) (w0 * p.x) with
    | none => simp [hp, h0, hs0] at h
    | some e1 =>
    cases h1w : W.coeff i 1 with
    | none => simp [hp, h0, hs0, h1w] at h
    | some w1 =>
    cases hs1 : setCoeff e1 (i * 3 + 1) (w1 * p.y) with
    | none => simp [hp, h0, hs0, h1w, hs1] at h
    | some e2 =>
    cases h2w : W.coeff i 2 with
    | none => simp [hp, h0, hs0, h1w, hs1, h2w] at h
    | some w2 =>
    cases hs2 : setCoeff e2 (i * 3 + 2) (w2 * p.z) with
    | none => simp [hp, h0, hs0, h1w, hs1, h2w, hs2] at h
    | some e3 =>
      simp only [hp, h0, hs0, h1w, hs1, h2w, hs2] at h
      obtain ⟨b0, r0⟩ := (setCoeff_some_iff _ _ _ _).mp hs0
      obtain ⟨b1, r1⟩ := (setCoeff_some_iff _ _ _ _).mp hs1
      obtain ⟨b2, r2⟩ := (setCoeff_some_iff _ _ _ _).mp hs2
      have l1 : e1.length = e.length := by rw [r0]; simp
      have l2 : e2.length = e.length := by rw [r1]; simp [l1]
      have l3 : e3.length = e.length := by rw [r2]; simp [l2]
      by_cases hj : j = i
      · subst hj
        refine ⟨(List.getElem?_eq_some.mp hp).1, ?_⟩
        intro k hk
        match k, hk with
        | 0, _ => exact ⟨by rw [h0]; rfl, by omega⟩
        | 1, _ => exact ⟨by rw [h1w]; rfl, by omega⟩
        | 2, _ => exact ⟨by rw [h2w]; rfl, by omega⟩
      · have := ih (i + 1) e3 e' h j (by omega) (by omega)
        rw [l3] at this
        exact this

/-- If the loop of `computeJacobian` returns, every index it used was in
bounds. -/
theorem computeJacobianLoop_in_bounds [Zero α] [One α] [Neg α] (ref : PointCloud α) :
    ∀ (count i : Nat) (J J' : MatrixX α), computeJacobianLoop ref count i J = some J' →
      ∀ j, i ≤ j → j < i + count → j < ref.length ∧ 3 * j + 2 < J.data.length ∧ J.cols = 6 := by
  intro count
  induction count with
  | zero => intro i J J' _ j h1 h2; omega
  | succ count ih =>
    intro i J J' h j h1 h2
    rw [computeJacobianLoop] at h
    cases hp : ref[i]? with
    | none => rw [hp] at h; exact absurd h (by simp)
    | some p =>
    cases hs0 : J.setRow (i * 3) [-1, 0, 0, 0, -p.z, p.y] with
    | none => simp [hp, hs0] at h
    | some J1 =>
    cases hs1 : J1.setRow (i * 3 + 1) [0, -1, 0, p.z, 0, -p.x] with
    | none => simp [hp, hs0, hs1] at h
    | some J2 =>
    cases hs2 : J2.setRow (i * 3 + 2) [0, 0, -1, -p.y, p.x, 0] with
    | none => simp [hp, hs0, hs1, hs2] at h
    | some J3 =>
      simp only [hp, hs0, hs1, hs2] at h
      obtain ⟨⟨b0, c0⟩, r0⟩ := (setRow_some_iff _ _ _ _).mp hs0
      obtain ⟨⟨b1, c1⟩, r1⟩ := (setRow_some_iff _ _ _ _).mp hs1
      obtain ⟨⟨b2, c2⟩, r2⟩ := (setRow_some_iff _ _ _ _).mp hs2
      have l1 : J1.data.length = J.data.length := by rw [r0]; simp
      have l2 : J2.data.length = J.data.length := by rw [r1]; simp [l1]
      have l3 : J3.data.length = J.data.length := by rw [r2]; simp [l2]
      have k3 : J3.cols = J.cols := by rw [r2, r1, r0]
      by_cases hj : j = i
      · subst hj
        exact ⟨(List.getElem?_eq_some.mp hp).1, by omega, by simpa using c0.symm⟩
      · have := ih (i + 1) J3 J' h j (by omega) (by omega)
        rw [l3, k3] at this
        exact this

/-- If `computeError` returns, the two sets had the same length and every index
used by the loop was in bounds. -/
theorem computeError_in_bounds [Sub α] [Mul α] [FiniteTest α] (u : ErrorPointToPoint α)
    (h : (computeError u).isSome) :
    u.current_.length = u.reference_.length ∧
      ∀ i, i < u.current_.length → ∀ k, k < 3 →
        (u.weights_.coeff i k).isSome ∧ 3 * i + k < u.errorVector_.length := by
  unfold computeError substractPointcloud at h
  by_cases hlen : u.current_.length = u.reference_.length
  · refine ⟨hlen, ?_⟩
    rw [if_pos hlen] at h
    simp only [] at h
    cases hloop : computeErrorLoop (differenceCloud u.current_ u.reference_) u.weights_
        (differenceCloud u.current_ u.reference_).length 0 u.errorVector_ with
    | none => rw [hloop] at h; exact absurd h (by simp)
    | some e =>
      intro i hi k hk
      have hd : (differenceCloud u.current_ u.reference_).length = u.current_.length := by
        simp [differenceCloud, hlen]
      exact (computeErrorLoop_in_bounds _ _ _ 0 _ _ hloop i (by omega) (by omega)).2 k hk
  · rw [if_neg hlen] at h
    exact absurd h (by simp)

/-- The block of the point `p` in `J · (t, ω)`, from the three rows of `p`. -/
theorem mulVec_block [CommRing α] (J : MatrixX α) (i : Nat) (p t ω : Point α)
    (hrows : (J.data.drop (3 * i)).take 3 = [jacobianRow p 0, jacobianRow p 1, jacobianRow p 2]) :
    ((J.mulVec (twist t ω)).drop (3 * i)).take 3 = (t.neg.add (cross p ω)).toList := by
  simp only [MatrixX.mulVec, ← List.map_drop, ← List.map_take, hrows, jacobianRow, twist, dot,
    Point.toList, Point.add, Point.neg, cross, List.map_cons, List.map_nil,
    List.zipWith_cons_cons, List.zipWith_nil_right, List.sum_cons, List.sum_nil,
    List.cons.injEq, and_true]
  refine ⟨?_, ?_, ?_⟩ <;> ring

/-- An entry read by `coeff` belongs to a row of the matrix. -/
theorem mem_of_coeff_eq_some (m : MatrixX α) (i j : Nat) (w : α) (h : m.coeff i j = some w) :
    ∃ row ∈ m.data, w ∈ row := by
  unfold MatrixX.coeff at h
  cases hrow : m.data[i]? with
  | none => rw [hrow] at h; exact absurd h (by simp)
  | some row =>
    rw [hrow] at h
    simp only [] at h
    split at h
    · exact ⟨row, List.mem_iff_getElem?.mpr ⟨i, hrow⟩, List.mem_iff_getElem?.mpr ⟨j, h⟩⟩
    · exact absurd h (by simp)

/-- The entries of a row of three weights, as `coeff` reads them. -/
theorem coeff_of_row (m : MatrixX α) (i : Nat) (w0 w1 w2 : α) (hc : m.cols = 3)
    (h : m.data[i]? = some [w0, w1, w2]) :
    m.coeff i 0 = some w0 ∧ m.coeff i 1 = some w1 ∧ m.coeff i 2 = some w2 := by
  simp [MatrixX.coeff, h, hc]

theorem nanScalar_sub_self (x : NanScalar) (h : FiniteTest.isFinite x = true) : x - x = 0 := by
  cases x with
  | num v => show NanScalar.num (v - v) = NanScalar.num 0; rw [sub_self]
  | nan => exact absurd h (by decide)

theorem nanScalar_mul_zero (w : NanScalar) (h : FiniteTest.isFinite w = true) : w * 0 = 0 := by
  cases w with
  | num v => show NanScalar.num (v * 0) = NanScalar.num 0; rw [mul_zero]
  | nan => exact absurd h (by decide)

end Functions

/-! ## The least-squares problem of the `JacobianUpdate` fixtures -/

section JacobianUpdate

end JacobianUpdate

/-! ## The claims -/

section Claims

variable {α : Type}

/-- Claim C1, as stated, fails: on the two-point sample `computeError` leaves
`[3, -2, 6, 16, 25, 36]`, whose first entry is not
`W(0, 0) * (current_0.x - reference_0.x) = 1 * (-2 - 1)`. -/
theorem computeError_residual_law_counterexample :
    (computeError sampleState).map (fun r => r.1.errorVector_) =
        some [3, -2, 6, 16, 25, 36] ∧
      sampleState.current_[0]? = some ⟨-2, 3, 1⟩ ∧
      sampleState.reference_[0]? = some ⟨1, 2, 3⟩ ∧
      sampleState.weights_.coeff 0 0 = some 1 ∧ (1 : ℤ) * (-2 - 1) ≠ 3 := by
  decide

/-- Claim C1, amended (residual law). With reference and current sets of length
`N`, an `N × 3` weight matrix and an error vector of length `3 * N`,
`computeError` returns, the error vector keeps length `3 * N`, and its entry
`3 * i + k` is `W(i, k) * (reference_i.k - current_i.k)`. -/
theorem computeError_residual_law [Sub α] [Mul α] [FiniteTest α] (s : ErrorPointToPoint α)
    (N : Nat) (hr : s.reference_.length = N) (hc : s.current_.length = N)
    (hW : s.weights_.HasShape N 3) (he : s.errorVector_.length = 3 * N) :
    ∃ s' log, computeError s = some (s', log) ∧ s'.errorVector_.length = 3 * N ∧
      ∀ i k c r w, k < 3 → s.current_[i]? = some c → s.reference_[i]? = some r →
        s.weights_.coeff i k = some w →
        s'.errorVector_[3 * i + k]? = some (w * (r.coord k - c.coord k)) := by
  obtain ⟨e, hE, hl, _, hent⟩ := computeError_entry s N hr hc hW (by omega)
  exact ⟨_, _, hE, by simpa [he] using hl, hent⟩

/-- Witness of the amended C1 on the two-point sample. -/
theorem computeError_residual_law_witness :
    sampleState.reference_.length = 2 ∧ sampleState.current_.length = 2 ∧
      sampleState.weights_.HasShape 2 3 ∧ sampleState.errorVector_.length = 3 * 2 ∧
      ∃ s' log, computeError sampleState = some (s', log) ∧ s'.errorVector_.length = 3 * 2 ∧
        ∀ i k c r w, k < 3 → sampleState.current_[i]? = some c →
          sampleState.reference_[i]? = some r → sampleState.weights_.coeff i k = some w →
          s'.errorVector_[3 * i + k]? = some (w * (r.coord k - c.coord k)) :=
  ⟨by decide, by decide, by decide, by decide,
    computeError_residual_law sampleState 2 (by decide) (by decide) (by decide) (by decide)⟩

/-- Claim C2 (row layout). For every instance and every reference point
`p = reference_i`, `computeJacobian` returns and rows `3 * i`, `3 * i + 1`,
`3 * i + 2` of the Jacobian are `[-1, 0, 0, 0, -p.z, p.y]`,
`[0, -1, 0, p.z, 0, -p.x]` and `[0, 0, -1, -p.y, p.x, 0]`, whatever the current
set holds. -/
theorem computeJacobian_row_layout [Zero α] [One α] [Neg α] (s : ErrorPointToPoint α)
    (i : Nat) (p : Point α) (hp : s.reference_[i]? = some p) :
    ∃ s', computeJacobian s = some s' ∧
      s'.J_.data[3 * i]? = some [-1, 0, 0, 0, -p.z, p.y] ∧
      s'.J_.data[3 * i + 1]? = some [0, -1, 0, p.z, 0, -p.x] ∧
      s'.J_.data[3 * i + 2]? = some [0, 0, -1, -p.y, p.x, 0] := by
  obtain ⟨J, hJ, _, _, hrow⟩ := computeJacobian_spec s
  have hi : i < s.reference_.length := (List.getElem?_eq_some.mp hp).1
  have e0 : 3 * i / 3 = i := by omega
  have e1 : (3 * i + 1) / 3 = i := by omega
  have e2 : (3 * i + 2) / 3 = i := by omega
  have m0 : 3 * i % 3 = 0 := by omega
  have m1 : (3 * i + 1) % 3 = 1 := by omega
  have m2 : (3 * i + 2) % 3 = 2 := by omega
  refine ⟨_, hJ, ?_, ?_, ?_⟩
  · show J.data[3 * i]? = _
    rw [hrow, if_pos (by omega), e0, m0, hp]; rfl
  · show J.data[3 * i + 1]? = _
    rw [hrow, if_pos (by omega), e1, m1, hp]; rfl
  · show J.data[3 * i + 2]? = _
    rw [hrow, if_pos (by omega), e2, m2, hp]; rfl

/-- Witness of C2 on the second point of the sample. -/
theorem computeJacobian_row_layout_witness :
    sampleState.reference_[1]? = some ⟨4, 5, 6⟩ ∧
      ∃ s', computeJacobian sampleState = some s' ∧
        s'.J_.data[3 * 1]? = some [-1, 0, 0, 0, -6, 5] ∧
        s'.J_.data[3 * 1 + 1]? = some [0, -1, 0, 6, 0, -4] ∧
        s'.J_.data[3 * 1 + 2]? = some [0, 0, -1, -5, 4, 0] :=
  ⟨by decide, computeJacobian_row_layout sampleState 1 ⟨4, 5, 6⟩ (by decide)⟩

/-- Claim C3 (the residual of the tests). With reference and current sets of
length `N`, an `N × 3` weight matrix (all-ones by default) and an error vector of
length `3 * N`, `computeError` returns and block `i` of the error vector is
`W_i ⊙ (reference_i - current_i)`, axis by axis. -/
theorem computeError_test_residual [Sub α] [Mul α] [FiniteTest α] (s : ErrorPointToPoint α)
    (N : Nat) (hr : s.reference_.length = N) (hc : s.current_.length = N)
    (hW : s.weights_.HasShape N 3) (he : s.errorVector_.length = 3 * N) :
    ∃ s' log, computeError s = some (s', log) ∧
      ∀ i r c w0 w1 w2, s.reference_[i]? = some r → s.current_[i]? = some c →
        s.weights_.data[i]? = some [w0, w1, w2] →
        (s'.errorVector_.drop (3 * i)).take 3 =
          [w0 * (r.x - c.x), w1 * (r.y - c.y), w2 * (r.z - c.z)] := by
  obtain ⟨e, hE, _, _, hent⟩ := computeError_entry s N hr hc hW (by omega)
  refine ⟨_, _, hE, ?_⟩
  intro i r c w0 w1 w2 hri hci hrow
  obtain ⟨h0, h1, h2⟩ := coeff_of_row s.weights_ i w0 w1 w2 hW.2.1 hrow
  exact take3_drop e (3 * i) _ _ _ (hent i 0 c r w0 (by omega) hci hri h0)
    (hent i 1 c r w1 (by omega) hci hri h1) (hent i 2 c r w2 (by omega) hci hri h2)

set_option maxRecDepth 100000 in
set_option maxHeartbeats 4000000 in
/-- Witness of C3 on the fixtures of the tests `RealErrorVector` and
`TestWeights` (100 points): `computeError` leaves the vectors `err_expected_`
and `err_expected` of the tests, blocks `(3 i, -i, 2 i)` and `(i, 2 i, 3 i)`. -/
theorem computeError_test_residual_witness :
    (realErrorVectorFixture 100).reference_.length = 100 ∧
      (realErrorVectorFixture 100).current_.length = 100 ∧
      (realErrorVectorFixture 100).weights_.HasShape 100 3 ∧
      (realErrorVectorFixture 100).errorVector_.length = 3 * 100 ∧
      (computeError (realErrorVectorFixture 100)).map (fun r => r.1.errorVector_) =
        some (realErrorVectorExpected 100) ∧
      (computeError (testWeightsFixture 100)).map (fun r => r.1.errorVector_) =
        some (testWeightsExpected 100) ∧
      ∃ s' log, computeError (realErrorVectorFixture 100) = some (s', log) ∧
        ∀ i r c w0 w1 w2, (realErrorVectorFixture 100).reference_[i]? = some r →
          (realErrorVectorFixture 100).current_[i]? = some c →
          (realErrorVectorFixture 100).weights_.data[i]? = some [w0, w1, w2] →
          (s'.errorVector_.drop (3 * i)).take 3 =
            [w0 * (r.x - c.x), w1 * (r.y - c.y), w2 * (r.z - c.z)] :=
  ⟨by decide, by decide, by decide, by decide, by decide, by decide,
    computeError_test_residual (realErrorVectorFixture 100) 100 (by decide) (by decide)
      (by decide) (by decide)⟩

/-- Claim C4, as stated, fails: with the current set equal to the reference set
and a NaN coordinate in the point, `computeError` leaves `[NaN, 0, 0]` (and logs
the warning), not the zero vector. -/
theorem computeError_identity_counterexample :
    nanIdentityState.current_ = nanIdentityState.reference_ ∧
      nanIdentityState.weights_.HasShape 1 3 ∧
      computeError nanIdentityState =
        some ({ nanIdentityState with errorVector_ := [.nan, .num 0, .num 0] },
          [nanWarning]) ∧
      ([.nan, .num 0, .num 0] : List NanScalar) ≠ List.replicate (3 * 1) 0 := by
  decide

/-- Claim C4, amended (identity property). Over a scalar type in which a finite
value minus itself is zero and a finite value times zero is zero, when the
current set is the reference set (of any length `N`, zero included), all its
coordinates are finite and all the weights of the `N × 3` weight matrix are
finite, `computeError` returns and every one of the `3 * N` entries of the error
vector is zero. -/
theorem computeError_identity [Sub α] [Mul α] [Zero α] [FiniteTest α]
    (hsub : ∀ x : α, FiniteTest.isFinite x = true → x - x = 0)
    (hmul : ∀ w : α, FiniteTest.isFinite w = true → w * 0 = 0)
    (s : ErrorPointToPoint α) (N : Nat)
    (hP : s.current_ = s.reference_) (hr : s.reference_.length = N)
    (hW : s.weights_.HasShape N 3) (he : s.errorVector_.length = 3 * N)
    (hfinP : ∀ p ∈ s.reference_, FiniteTest.isFinite p.x = true ∧
      FiniteTest.isFinite p.y = true ∧ FiniteTest.isFinite p.z = true)
    (hfinW : ∀ row ∈ s.weights_.data, ∀ w ∈ row, FiniteTest.isFinite w = true) :
    ∃ s' log, computeError s = some (s', log) ∧
      s'.errorVector_ = List.replicate (3 * N) 0 := by
  obtain ⟨e, hE, hl, _, hent⟩ := computeError_entry s N hr (by rw [hP]; exact hr) hW (by omega)
  refine ⟨_, _, hE, ?_⟩
  show e = List.replicate (3 * N) 0
  apply List.ext_getElem?
  intro r
  by_cases h : r < 3 * N
  · have hi : r / 3 < s.reference_.length := by omega
    obtain ⟨w, hw⟩ := coeff_eq_some_of_hasShape s.weights_ N 3 hW (r / 3) (r % 3)
      (by omega) (by omega)
    have hp : s.reference_[r / 3]? = some s.reference_[r / 3] := List.getElem?_eq_getElem hi
    have := hent (r / 3) (r % 3) _ _ w (by omega) (by rw [hP]; exact hp) hp hw
    rw [show 3 * (r / 3) + r % 3 = r by omega] at this
    obtain ⟨row, hrow, hwrow⟩ := mem_of_coeff_eq_some s.weights_ _ _ w hw
    have hwfin := hfinW row hrow w hwrow
    obtain ⟨fx, fy, fz⟩ := hfinP _ (List.getElem_mem hi)
    have hcfin : FiniteTest.isFinite ((s.reference_[r / 3]).coord (r % 3)) = true := by
      unfold Point.coord
      split
      · exact fx
      · exact fy
      · exact fz
    rw [this, List.getElem?_replicate, if_pos h, hsub _ hcfin, hmul _ hwfin]
  · rw [List.getElem?_eq_none (by omega), List.getElem?_eq_none (by simp; omega)]

/-- Witness of the amended C4: a two-point instance over `NanScalar` with both
sets equal and only finite coordinates and weights. -/
theorem computeError_identity_witness :
    (∀ x : NanScalar, FiniteTest.isFinite x = true → x - x = 0) ∧
      (∀ w : NanScalar, FiniteTest.isFinite w = true → w * 0 = 0) ∧
      finiteIdentityState.current_ = finiteIdentityState.reference_ ∧
      finiteIdentityState.reference_.length = 2 ∧
      finiteIdentityState.weights_.HasShape 2 3 ∧
      finiteIdentityState.errorVector_.length = 3 * 2 ∧
      ∃ s' log, computeError finiteIdentityState = some (s', log) ∧
        s'.errorVector_ = List.replicate (3 * 2) 0 :=
  ⟨nanScalar_sub_self, nanScalar_mul_zero, by decide, by decide, by decide, by decide,
    computeError_identity nanScalar_sub_self nanScalar_mul_zero finiteIdentityState 2
      (by decide) (by decide) (by decide) (by decide) (by decide) (by decide)⟩

/-- Claim C5 (weighting law). For equal-length sets and an `N × 3` weight matrix
`W`, entry `3 * i + k` of the error vector is `W(i, k)` times the same entry
computed with all-ones weights; and with any other `N × 3` weight matrix that
agrees with `W` at `(i, k)`, entry `3 * i + k` is the same: the other weights do
not reach it. -/
theorem computeError_weighting_law [Ring α] [FiniteTest α] (s : ErrorPointToPoint α)
    (N : Nat) (hr : s.reference_.length = N) (hc : s.current_.length = N)
    (hW : s.weights_.HasShape N 3) (he : s.errorVector_.length = 3 * N) :
    ∃ s' log s1 log1, computeError s = some (s', log) ∧
      computeError { s with weights_ := MatrixX.ones N 3 } = some (s1, log1) ∧
      (∀ i k w, i < N → k < 3 → s.weights_.coeff i k = some w →
        ∃ u, s1.errorVector_[3 * i + k]? = some u ∧
          s'.errorVector_[3 * i + k]? = some (w * u)) ∧
      ∀ W' : MatrixX α, W'.HasShape N 3 →
        ∃ s2 log2, computeError { s with weights_ := W' } = some (s2, log2) ∧
          ∀ i k, i < N → k < 3 → W'.coeff i k = s.weights_.coeff i k →
            s2.errorVector_[3 * i + k]? = s'.errorVector_[3 * i + k]? := by
  obtain ⟨e, hE, _, _, hent⟩ := computeError_entry s N hr hc hW (by omega)
  obtain ⟨e1, hE1, _, _, hent1⟩ := computeError_entry { s with weights_ := MatrixX.ones N 3 } N
    hr hc (ones_hasShape N 3) (by simp only []; omega)
  refine ⟨_, _, _, _, hE, hE1, ?_, ?_⟩
  · intro i k w hi hk hw
    have hci : s.current_[i]? = some s.current_[i] := List.getElem?_eq_getElem (by omega)
    have hri : s.reference_[i]? = some s.reference_[i] := List.getElem?_eq_getElem (by omega)
    refine ⟨s.reference_[i].coord k - s.current_[i].coord k, ?_, ?_⟩
    · exact (hent1 i k _ _ 1 hk hci hri (ones_coeff N 3 i k hi hk)).trans (by rw [one_mul])
    · exact hent i k _ _ w hk hci hri hw
  · intro W' hW'
    obtain ⟨e2, hE2, _, _, hent2⟩ := computeError_entry { s with weights_ := W' } N
      hr hc hW' (by simp only []; omega)
    refine ⟨_, _, hE2, ?_⟩
    intro i k hi hk hagree
    have hci : s.current_[i]? = some s.current_[i] := List.getElem?_eq_getElem (by omega)
    have hri : s.reference_[i]? = some s.reference_[i] := List.getElem?_eq_getElem (by omega)
    obtain ⟨w, hw⟩ := coeff_eq_some_of_hasShape s.weights_ N 3 hW i k hi hk
    exact (hent2 i k _ _ w hk hci hri (hagree.trans hw)).trans
      (hent i k _ _ w hk hci hri hw).symm

/-- Witness of C5 on the two-point sample. -/
theorem computeError_weighting_law_witness :
    sampleState.reference_.length = 2 ∧ sampleState.current_.length = 2 ∧
      sampleState.weights_.HasShape 2 3 ∧ sampleState.errorVector_.length = 3 * 2 ∧
      ∃ s' log s1 log1, computeError sampleState = some (s', log) ∧
        computeError { sampleState with weights_ := MatrixX.ones 2 3 } = some (s1, log1) ∧
        (∀ i k w, i < 2 → k < 3 → sampleState.weights_.coeff i k = some w →
          ∃ u, s1.errorVector_[3 * i + k]? = some u ∧
            s'.errorVector_[3 * i + k]? = some (w * u)) ∧
        ∀ W' : MatrixX ℤ, W'.HasShape 2 3 →
          ∃ s2 log2, computeError { sampleState with weights_ := W' } = some (s2, log2) ∧
            ∀ i k, i < 2 → k < 3 → W'.coeff i k = sampleState.weights_.coeff i k →
              s2.errorVector_[3 * i + k]? = s'.errorVector_[3 * i + k]? :=
  ⟨by decide, by decide, by decide, by decide,
    computeError_weighting_law sampleState 2 (by decide) (by decide) (by decide) (by decide)⟩

/-- Claim C7, as stated, fails: for the reference point `p = (1, 0, 0)` the
block of columns 3–5 is the skew-symmetric matrix of `p`, which is not its
opposite, and applied to `v = (0, 1, 0)` it gives `p × v = (0, 0, 1)`, not
`-(p × v) = (0, 0, -1)`. -/
theorem computeJacobian_rotation_block_counterexample :
    (computeJacobian basisState).map (fun s => s.J_.block3 0 3) = some (skew ⟨1, 0, 0⟩) ∧
      (skew ⟨1, 0, 0⟩ : List (List ℤ)) ≠ (skew ⟨1, 0, 0⟩).map (fun row => row.map fun a => -a) ∧
      (computeJacobian basisState).map (fun s => mulVec3 (s.J_.block3 0 3) ⟨0, 1, 0⟩) =
        some [0, 0, 1] ∧
      (cross (⟨1, 0, 0⟩ : Point ℤ) ⟨0, 1, 0⟩).neg.toList = [0, 0, -1] := by
  decide

/-- Claim C7, amended (Jacobian block structure). For every reference point
`p = reference_i`, in the block of rows `3 * i .. 3 * i + 2` the columns 0–2 are
the opposite of the 3×3 identity and the columns 3–5 are the skew-symmetric
(cross-product) matrix of `p` itself, where `skew p · v = p × v`: the rotation
block applied to `v` is `p × v`. -/
theorem computeJacobian_block_structure [CommRing α] (s : ErrorPointToPoint α)
    (i : Nat) (p : Point α) (hp : s.reference_[i]? = some p) :
    ∃ s', computeJacobian s = some s' ∧
      s'.J_.block3 (3 * i) 0 = negIdentity3 ∧
      s'.J_.block3 (3 * i) 3 = skew p ∧
      ∀ v, mulVec3 (skew p) v = (cross p v).toList ∧
        mulVec3 (s'.J_.block3 (3 * i) 3) v = (cross p v).toList := by
  obtain ⟨J, hJ, hrows⟩ := computeJacobian_rows s i p hp
  have h0 : J.block3 (3 * i) 0 = negIdentity3 := by
    simp [MatrixX.block3, hrows, jacobianRow, negIdentity3]
  have h3 : J.block3 (3 * i) 3 = skew p := by
    simp [MatrixX.block3, hrows, jacobianRow, skew]
  have hv : ∀ v, mulVec3 (skew p) v = (cross p v).toList := by
    intro v
    simp only [mulVec3, skew, cross, Point.toList, List.map_cons, List.map_nil,
      List.zipWith_cons_cons, List.zipWith_nil_right, List.sum_cons, List.sum_nil,
      List.cons.injEq, and_true]
    refine ⟨?_, ?_, ?_⟩ <;> ring
  refine ⟨_, hJ, h0, h3, fun v => ⟨hv v, ?_⟩⟩
  show mulVec3 (J.block3 (3 * i) 3) v = _
  rw [h3]; exact hv v

/-- Witness of the amended C7 on the second point of the sample. -/
theorem computeJacobian_block_structure_witness :
    sampleState.reference_[1]? = some ⟨4, 5, 6⟩ ∧
      ∃ s', computeJacobian sampleState = some s' ∧
        s'.J_.block3 (3 * 1) 0 = negIdentity3 ∧
        s'.J_.block3 (3 * 1) 3 = skew ⟨4, 5, 6⟩ ∧
        ∀ v, mulVec3 (skew ⟨4, 5, 6⟩) v = (cross ⟨4, 5, 6⟩ v).toList ∧
          mulVec3 (s'.J_.block3 (3 * 1) 3) v = (cross ⟨4, 5, 6⟩ v).toList :=
  ⟨by decide, computeJacobian_block_structure sampleState 1 ⟨4, 5, 6⟩ (by decide)⟩

/-- Claim C8 (Jacobian size invariant). For every instance, whatever its
reference set (empty included) and whatever the Jacobian held before,
`computeJacobian` returns and the Jacobian then has exactly `3 * N` rows and `6`
columns, every row holding `6` entries. -/
theorem computeJacobian_size [Zero α] [One α] [Neg α] (s : ErrorPointToPoint α) :
    ∃ s', computeJacobian s = some s' ∧ s'.J_.rows = 3 * s.reference_.length ∧
      s'.J_.cols = 6 ∧ s'.J_.HasShape (3 * s.reference_.length) 6 := by
  obtain ⟨J, hJ, hc, hl, hrow⟩ := computeJacobian_spec s
  refine ⟨_, hJ, hl, hc, hl, hc, ?_⟩
  intro row hmem
  obtain ⟨r, hr⟩ := List.mem_iff_getElem?.mp hmem
  change J.data[r]? = some row at hr
  rw [hrow r] at hr
  split at hr
  · cases hp : s.reference_[r / 3]? with
    | none => rw [hp] at hr; exact absurd hr (by simp)
    | some p =>
      rw [hp] at hr
      simp only [Option.map_some', Option.some.injEq] at hr
      rw [← hr]
      exact jacobianRow_length p _
  · exact absurd hr (by simp)

/-- Claim C9, as stated, fails: with one point per set and an error vector of
length `4`, `computeError` returns and the vector still has length `4`, not
`3 * 1`; and with an error vector of length `0` it does not return at all (the
writes are out of bounds). -/
theorem computeError_length_counterexample :
    longBufferState.reference_.length = 1 ∧ longBufferState.current_.length = 1 ∧
      (computeError longBufferState).map (fun r => r.1.errorVector_) = some [1, 1, 1, 9] ∧
      (computeError longBufferState).map (fun r => r.1.errorVector_.length) ≠ some (3 * 1) ∧
      computeError emptyBufferState = none := by
  decide

/-- Claim C9, amended (error-vector size invariant). For equal-length sets
(`N ≥ 0`), an `N × 3` weight matrix and an error vector that already has length
`3 * N` before the call, whatever it holds, `computeError` returns and the error
vector has length exactly `3 * N` afterwards. -/
theorem computeError_length [Sub α] [Mul α] [FiniteTest α] (s : ErrorPointToPoint α) (N : Nat)
    (hr : s.reference_.length = N) (hc : s.current_.length = N)
    (hW : s.weights_.HasShape N 3) (he : s.errorVector_.length = 3 * N) :
    ∃ s' log, computeError s = some (s', log) ∧ s'.errorVector_.length = 3 * N := by
  obtain ⟨e, hE, hl, _, _⟩ := computeError_entry s N hr hc hW (by omega)
  exact ⟨_, _, hE, hl.trans he⟩

/-- Witness of the amended C9 on the two-point sample. -/
theorem computeError_length_witness :
    sampleState.reference_.length = 2 ∧ sampleState.current_.length = 2 ∧
      sampleState.weights_.HasShape 2 3 ∧ sampleState.errorVector_.length = 3 * 2 ∧
      ∃ s' log, computeError sampleState = some (s', log) ∧
        s'.errorVector_.length = 3 * 2 :=
  ⟨by decide, by decide, by decide, by decide,
    computeError_length sampleState 2 (by decide) (by decide) (by decide) (by decide)⟩

/-- Claim C10 (the Jacobian depends on the reference set only). Two instances
with the same reference set, whatever their current sets, weights, error vectors
and previous Jacobians, get the same Jacobian from `computeJacobian`, which
returns on both. -/
theorem computeJacobian_reference_only [Zero α] [One α] [Neg α]
    (s1 s2 : ErrorPointToPoint α) (h : s1.reference_ = s2.reference_) :
    ∃ J, (computeJacobian s1).map (fun s => s.J_) = some J ∧
      (computeJacobian s2).map (fun s => s.J_) = some J := by
  obtain ⟨J, hJ, _⟩ := computeJacobian_spec s1
  refine ⟨J, by rw [hJ]; rfl, ?_⟩
  have h2 : computeJacobian s2 = some { s2 with J_ := J } := by
    simp only [computeJacobian, ← h] at hJ ⊢
    cases hloop : computeJacobianLoop s1.reference_ s1.reference_.length 0
        (MatrixX.setZero (3 * s1.reference_.length) 6) with
    | none => rw [hloop] at hJ; exact absurd hJ (by simp)
    | some J' =>
      rw [hloop] at hJ
      simp only [Option.some.injEq] at hJ
      have : J' = J := congrArg ErrorPointToPoint.J_ hJ
      rw [this]
  rw [h2]; rfl

/-- Witness of C10: the sample and an instance sharing only its reference set. -/
theorem computeJacobian_reference_only_witness :
    sampleState.reference_ = otherState.reference_ ∧ sampleState.current_ ≠ otherState.current_ ∧
      sampleState.weights_ ≠ otherState.weights_ ∧ sampleState.J_ ≠ otherState.J_ ∧
      ∃ J, (computeJacobian sampleState).map (fun s => s.J_) = some J ∧
        (computeJacobian otherState).map (fun s => s.J_) = some J :=
  ⟨by decide, by decide, by decide, by decide,
    computeJacobian_reference_only sampleState otherState (by decide)⟩

/-- Claim C11 (determinism of `computeError`). Two instances with the same
reference set, current set (of length `N`) and `N × 3` weight matrix, whose error
vectors have length `3 * N` with any contents and whose Jacobians are arbitrary,
have the same error vector (and the same log) after `computeError`; and calling
`computeError` again on the result changes nothing. -/
theorem computeError_deterministic [Sub α] [Mul α] [FiniteTest α]
    (s1 s2 : ErrorPointToPoint α) (N : Nat)
    (hr : s1.reference_.length = N) (hc : s1.current_.length = N)
    (hW : s1.weights_.HasShape N 3) (he1 : s1.errorVector_.length = 3 * N)
    (he2 : s2.errorVector_.length = 3 * N) (href : s2.reference_ = s1.reference_)
    (hcur : s2.current_ = s1.current_) (hwt : s2.weights_ = s1.weights_) :
    ∃ t1 t2 log, computeError s1 = some (t1, log) ∧ computeError s2 = some (t2, log) ∧
      t1.errorVector_ = t2.errorVector_ ∧ computeError t1 = some (t1, log) := by
  obtain ⟨e, hE1, hE2⟩ := computeError_vector_unique s1 s2 N hr hc hW he1 he2 href hcur hwt
  have hlen : e.length = 3 * N := by
    obtain ⟨e', hE', hl', _⟩ := computeError_spec s1 N hr hc hW (by omega)
    rw [hE1] at hE'
    simp only [Option.some.injEq, Prod.mk.injEq] at hE'
    have : e = e' := congrArg ErrorPointToPoint.errorVector_ hE'.1
    rw [this, hl', he1]
  obtain ⟨e3, hE3, hE4⟩ := computeError_vector_unique s1 { s1 with errorVector_ := e } N hr hc hW
    he1 hlen rfl rfl rfl
  rw [hE1] at hE3
  simp only [Option.some.injEq, Prod.mk.injEq] at hE3
  have h3 : e = e3 := congrArg ErrorPointToPoint.errorVector_ hE3.1
  rw [← h3] at hE4
  exact ⟨_, _, _, hE1, hE2, rfl, hE4⟩

/-- Witness of C11: the sample and the same inputs with other stale buffers. -/
theorem computeError_deterministic_witness :
    sampleState.reference_.length = 2 ∧ sampleState.current_.length = 2 ∧
      sampleState.weights_.HasShape 2 3 ∧ sampleState.errorVector_.length = 3 * 2 ∧
      staleState.errorVector_.length = 3 * 2 ∧
      staleState.errorVector_ ≠ sampleState.errorVector_ ∧ staleState.J_ ≠ sampleState.J_ ∧
      ∃ t1 t2 log, computeError sampleState = some (t1, log) ∧
        computeError staleState = some (t2, log) ∧
        t1.errorVector_ = t2.errorVector_ ∧ computeError t1 = some (t1, log) :=
  ⟨by decide, by decide, by decide, by decide, by decide, by decide, by decide,
    computeError_deterministic sampleState staleState 2 (by decide) (by decide) (by decide)
      (by decide) (by decide) (by decide) (by decide) (by decide)⟩

/-- Claim C12 (finiteness diagnostic). For equal-length sets, an `N × 3` weight
matrix and an error vector of length `3 * N`, over any scalar type with a
finiteness test, `computeError` returns; the log holds the warning if and only
if some entry of the filled error vector is not finite, and is empty otherwise;
and the check changes no entry: every entry `3 * i + k` is the residual
`W(i, k) * (reference_i.k - current_i.k)`. -/
theorem computeError_finiteness_diagnostic [Sub α] [Mul α] [FiniteTest α]
    (s : ErrorPointToPoint α) (N : Nat)
    (hr : s.reference_.length = N) (hc : s.current_.length = N)
    (hW : s.weights_.HasShape N 3) (he : s.errorVector_.length = 3 * N) :
    ∃ s' log, computeError s = some (s', log) ∧
      (nanWarning ∈ log ↔ ∃ x ∈ s'.errorVector_, FiniteTest.isFinite x = false) ∧
      (log = [nanWarning] ∨ log = []) ∧
      ∀ i k c r w, k < 3 → s.current_[i]? = some c → s.reference_[i]? = some r →
        s.weights_.coeff i k = some w →
        s'.errorVector_[3 * i + k]? = some (w * (r.coord k - c.coord k)) := by
  obtain ⟨e, hE, _, _, hent⟩ := computeError_entry s N hr hc hW (by omega)
  refine ⟨_, _, hE, ?_, ?_, hent⟩
  · show nanWarning ∈ (if !allFinite e then [nanWarning] else []) ↔
      ∃ x ∈ e, FiniteTest.isFinite x = false
    cases hfin : allFinite e with
    | true =>
      simp only [Bool.not_true, Bool.false_eq_true, if_false, List.not_mem_nil, false_iff]
      rintro ⟨x, hx, hxf⟩
      have := List.all_eq_true.mp hfin x hx
      rw [hxf] at this
      exact absurd this (by decide)
    | false =>
      simp only [Bool.not_false, if_true, List.mem_singleton, true_iff]
      by_contra hcon
      have hall : allFinite e = true := by
        apply List.all_eq_true.mpr
        intro x hx
        cases hxf : FiniteTest.isFinite x with
        | true => rfl
        | false => exact absurd ⟨x, hx, hxf⟩ hcon
      rw [hall] at hfin
      exact absurd hfin (by decide)
  · cases allFinite e with
    | true => right; rfl
    | false => left; rfl

/-- Witness of C12: a NaN coordinate in the first current point makes one entry
NaN; the call returns, the warning is logged and the five other entries are the
finite residuals. -/
theorem computeError_finiteness_diagnostic_witness :
    nanState.reference_.length = 2 ∧ nanState.current_.length = 2 ∧
      nanState.weights_.HasShape 2 3 ∧ nanState.errorVector_.length = 3 * 2 ∧
      computeError nanState =
        some ({ nanState with
          errorVector_ := [.num 1, .nan, .num 2, .num (-6), .num (-4), .num (-2)] },
          [nanWarning]) ∧
      ∃ s' log, computeError nanState = some (s', log) ∧
        (nanWarning ∈ log ↔ ∃ x ∈ s'.errorVector_, FiniteTest.isFinite x = false) ∧
        (log = [nanWarning] ∨ log = []) ∧
        ∀ i k c r w, k < 3 → nanState.current_[i]? = some c →
          nanState.reference_[i]? = some r → nanState.weights_.coeff i k = some w →
          s'.errorVector_[3 * i + k]? = some (w * (r.coord k - c.coord k)) :=
  ⟨by decide, by decide, by decide, by decide, by decide,
    computeError_finiteness_diagnostic nanState 2 (by decide) (by decide) (by decide)
      (by decide)⟩

/-- Claim C13 (index safety). Under the caller obligation (both sets of length
`N`, an `N × 3` weight matrix, an error vector of length `3 * N`) the difference
set has `N` points, every index used by `computeError` (point `i`, weights
`(i, k)`, entry `3 * i + k`, for `i < N` and `k < 3`) is in bounds and the call
returns; `computeJacobian` returns on every instance, reading reference points
`i < N` and writing rows `3 * i + 2 < 3 * N` of the 6-column matrix it sized.
Conversely `computeError` only returns when the sets have equal length and all
these indices are in bounds. -/
theorem compute_index_safety [Zero α] [One α] [Neg α] [Sub α] [Mul α] [FiniteTest α]
    (s : ErrorPointToPoint α) (N : Nat)
    (hr : s.reference_.length = N) (hc : s.current_.length = N)
    (hW : s.weights_.HasShape N 3) (he : s.errorVector_.length = 3 * N) :
    (∃ pc_e, substractPointcloud s.current_ s.reference_ = some pc_e ∧ pc_e.length = N ∧
        ∀ i, i < N → (pc_e[i]?).isSome ∧ ∀ k, k < 3 →
          (s.weights_.coeff i k).isSome ∧ 3 * i + k < s.errorVector_.length) ∧
      (computeError s).isSome ∧
      (∀ t : ErrorPointToPoint α, (computeJacobian t).isSome ∧
        ∀ i, i < t.reference_.length → (t.reference_[i]?).isSome ∧
          3 * i + 2 < (MatrixX.setZero (3 * t.reference_.length) 6 : MatrixX α).rows ∧
          (MatrixX.setZero (3 * t.reference_.length) 6 : MatrixX α).cols = 6) ∧
      ∀ u : ErrorPointToPoint α, (computeError u).isSome →
        u.current_.length = u.reference_.length ∧
          ∀ i, i < u.current_.length → ∀ k, k < 3 →
            (u.weights_.coeff i k).isSome ∧ 3 * i + k < u.errorVector_.length := by
  refine ⟨⟨differenceCloud s.current_ s.reference_, ?_, ?_, ?_⟩, ?_, ?_,
    fun u hu => computeError_in_bounds u hu⟩
  · simp [substractPointcloud, hr, hc]
  · simp [differenceCloud, hr, hc]
  · intro i hi
    have hlen : (differenceCloud s.current_ s.reference_).length = N := by
      simp [differenceCloud, hr, hc]
    refine ⟨by rw [List.getElem?_eq_getElem (by omega)]; rfl, ?_⟩
    intro k hk
    obtain ⟨w, hw⟩ := coeff_eq_some_of_hasShape s.weights_ N 3 hW i k hi hk
    exact ⟨by rw [hw]; rfl, by omega⟩
  · obtain ⟨e, hE, _⟩ := computeError_spec s N hr hc hW (by omega)
    rw [hE]; rfl
  · intro t
    obtain ⟨J, hJ, _⟩ := computeJacobian_spec t
    refine ⟨by rw [hJ]; rfl, ?_⟩
    intro i hi
    refine ⟨by rw [List.getElem?_eq_getElem hi]; rfl, ?_, rfl⟩
    simp only [MatrixX.rows, MatrixX.setZero, List.length_replicate]
    omega

/-- Witness of C13 on the two-point sample; with one weight row for two points,
or with an error vector never sized, `computeError` does not return. -/
theorem compute_index_safety_witness :
    sampleState.reference_.length = 2 ∧ sampleState.current_.length = 2 ∧
      sampleState.weights_.HasShape 2 3 ∧ sampleState.errorVector_.length = 3 * 2 ∧
      computeError shortWeightsState = none ∧ computeError emptyBufferState = none ∧
      (∃ pc_e, substractPointcloud sampleState.current_ sampleState.reference_ = some pc_e ∧
        pc_e.length = 2 ∧
        ∀ i, i < 2 → (pc_e[i]?).isSome ∧ ∀ k, k < 3 →
          (sampleState.weights_.coeff i k).isSome ∧
            3 * i + k < sampleState.errorVector_.length) ∧
      (computeError sampleState).isSome :=
  ⟨by decide, by decide, by decide, by decide, by decide, by decide,
    (compute_index_safety sampleState 2 (by decide) (by decide) (by decide) (by decide)).1,
    (compute_index_safety sampleState 2 (by decide) (by decide) (by decide) (by decide)).2.1⟩

/-- Claim C14 (the update of the SO3 variant). One call of `update` applies the
pseudo-inverse of the Jacobian to the error vector once, exponentiates the
increment `Δ` and returns `Exp(Δ) · T_current`: the new pose acts on a point as
`Exp(Δ)` after `T_current`. The increment is on the left: with a quarter turn
for `Exp(Δ)` and a unit shift for `T_current` the result is not
`T_current · Exp(Δ)`. -/
theorem update_left_composition [CommRing α] (pseudoInverse : MatrixX α → MatrixX α)
    (expMap : List α → Pose α) (T_current : Pose α) (s : ErrorPointToPoint α) :
    update pseudoInverse expMap T_current s =
        expMap ((pseudoInverse s.J_).mulVec s.errorVector_) * T_current ∧
      (∀ P : Fin 4 → α, (update pseudoInverse expMap T_current s).mulVec P =
        (expMap ((pseudoInverse s.J_).mulVec s.errorVector_)).mulVec (T_current.mulVec P)) ∧
      ∀ (pinv : MatrixX ℤ → MatrixX ℤ) (t : ErrorPointToPoint ℤ),
        update pinv (fun _ => quarterTurn) unitShift t = quarterTurn * unitShift ∧
        update pinv (fun _ => quarterTurn) unitShift t ≠ unitShift * quarterTurn := by
  refine ⟨rfl, ?_, ?_⟩
  · intro P
    simp only [update, Matrix.mulVec_mulVec]
  · intro pinv t
    refine ⟨rfl, ?_⟩
    intro heq
    have := congrFun (congrFun heq 0) 3
    simp [update, quarterTurn, unitShift, Matrix.mul_apply, Fin.sum_univ_four] at this

/-- Claim C15 (action of the Jacobian on a twist). For every reference point
`p = reference_i` and every twist `ξ = (t, ω)`, the block `3 * i .. 3 * i + 2` of
`J · ξ` is `-(t + ω × p)`, which is `-t + p × ω`. -/
theorem computeJacobian_action_on_twist [CommRing α] (s : ErrorPointToPoint α) (i : Nat)
    (p : Point α) (hp : s.reference_[i]? = some p) (t ω : Point α) :
    ∃ s', computeJacobian s = some s' ∧
      ((s'.J_.mulVec (twist t ω)).drop (3 * i)).take 3 = ((t.add (cross ω p)).neg).toList ∧
      (t.add (cross ω p)).neg = t.neg.add (cross p ω) := by
  obtain ⟨J, hJ, hrows⟩ := computeJacobian_rows s i p hp
  have heq : (t.add (cross ω p)).neg = t.neg.add (cross p ω) := by
    simp only [Point.add, Point.neg, cross, Point.mk.injEq]
    refine ⟨?_, ?_, ?_⟩ <;> ring
  refine ⟨_, hJ, ?_, heq⟩
  rw [heq]
  exact mulVec_block J i p t ω hrows

/-- Witness of C15 on the second point of the sample. -/
theorem computeJacobian_action_on_twist_witness :
    sampleState.reference_[1]? = some ⟨4, 5, 6⟩ ∧
      ∃ s', computeJacobian sampleState = some s' ∧
        ((s'.J_.mulVec (twist ⟨1, 2, 3⟩ ⟨7, 8, 9⟩)).drop (3 * 1)).take 3 =
          ((Point.add ⟨1, 2, 3⟩ (cross ⟨7, 8, 9⟩ ⟨4, 5, 6⟩)).neg).toList ∧
        (Point.add ⟨1, 2, 3⟩ (cross ⟨7, 8, 9⟩ ⟨4, 5, 6⟩)).neg =
          (Point.neg ⟨1, 2, 3⟩).add (cross ⟨4, 5, 6⟩ ⟨7, 8, 9⟩) :=
  ⟨by decide, computeJacobian_action_on_twist sampleState 1 ⟨4, 5, 6⟩ (by decide)
    ⟨1, 2, 3⟩ ⟨7, 8, 9⟩⟩

/-- Claim C17 (frame of the two operations). When `computeError` and
`computeJacobian` return on an instance, the first leaves the Jacobian, the
reference set, the current set and the weights as they were, the second leaves
the error vector, the reference set, the current set and the weights as they
were, and the two orders of running both end in the same instance (with the same
log). -/
theorem compute_frame [Zero α] [One α] [Neg α] [Sub α] [Mul α] [FiniteTest α] (s s1 s2 : ErrorPointToPoint α)
    (log : List String) (hE : computeError s = some (s1, log))
    (hJ : computeJacobian s = some s2) :
    (s1.J_ = s.J_ ∧ s1.reference_ = s.reference_ ∧ s1.current_ = s.current_ ∧
        s1.weights_ = s.weights_) ∧
      (s2.errorVector_ = s.errorVector_ ∧ s2.reference_ = s.reference_ ∧
        s2.current_ = s.current_ ∧ s2.weights_ = s.weights_) ∧
      ∃ t, computeJacobian s1 = some t ∧ computeError s2 = some (t, log) := by
  have f1 := computeError_frame s s1 log hE
  have f2 := computeJacobian_frame s s2 hJ
  refine ⟨?_, ?_, ?_⟩
  · rw [f1]; exact ⟨rfl, rfl, rfl, rfl⟩
  · rw [f2]; exact ⟨rfl, rfl, rfl, rfl⟩
  · refine ⟨{ s with errorVector_ := s1.errorVector_, J_ := s2.J_ }, ?_, ?_⟩
    · rw [f1, computeJacobian_congr_errorVector, hJ, f2]; rfl
    · rw [f2, computeError_congr_J, hE, f1]; rfl

/-- Witness of C17 on the two-point sample, on which both functions return. -/
theorem compute_frame_witness :
    ∃ s1 log s2, computeError sampleState = some (s1, log) ∧
      computeJacobian sampleState = some s2 ∧
      (s1.J_ = sampleState.J_ ∧ s1.reference_ = sampleState.reference_ ∧
        s1.current_ = sampleState.current_ ∧ s1.weights_ = sampleState.weights_) ∧
      (s2.errorVector_ = sampleState.errorVector_ ∧ s2.reference_ = sampleState.reference_ ∧
        s2.current_ = sampleState.current_ ∧ s2.weights_ = sampleState.weights_) ∧
      ∃ t, computeJacobian s1 = some t ∧ computeError s2 = some (t, log) := by
  obtain ⟨e, hE, _⟩ := computeError_entry sampleState 2 (by decide) (by decide) (by decide)
    (by decide)
  obtain ⟨J, hJ, _⟩ := computeJacobian_spec sampleState
  exact ⟨_, _, _, hE, hJ, compute_frame sampleState _ _ _ hE hJ⟩

end Claims

end icp
